import Mathlib

/-!
# nodist shim (`src/shim.go`): version-spec resolution, catalog matching, delegation

A shallow embedding of `shim.go`.  The process environment, the file system and
the child process are fields of a `World`; the third-party and standard
libraries the shim calls (`path/filepath`, `encoding/json`,
`github.com/marcelklehr/semver`) are fields of the same structure, so the
theorems stated for an arbitrary `World` hold for any implementation of them;
the concrete runs use the reference instance `tableWorld`.  Go pointers are
`Option` (`none` is `nil`); Go run-time panics are the `panic` result.
-/

namespace Shim

/-! ## Go run-time results -/

/-- Go `error` values, as far as the shim inspects them: `os.IsNotExist(err)`
holds exactly for `notExist`. -/
inductive GoError where
  | notExist
  | other
  deriving DecidableEq, Repr

/-- Model of `os.IsNotExist`. -/
def isNotExist : GoError → Bool
  | .notExist => true
  | .other => false

/-- Result of a piece of Go code: it returns a value, it panics (nil
dereference, index or slice bound out of range), or the loop budget of the
model is used up (`diverge`). -/
inductive Go (α : Type) where
  | ret (a : α)
  | panic
  | diverge
  deriving DecidableEq, Repr

/-- Equality of Go results of the form `(value, err)` can be decided. -/
instance decEqExcept {ε α : Type} [DecidableEq ε] [DecidableEq α] :
    DecidableEq (Except ε α)
  | .ok a, .ok b =>
    if h : a = b then isTrue (by rw [h]) else isFalse (fun h' => h (by cases h'; rfl))
  | .error a, .error b =>
    if h : a = b then isTrue (by rw [h]) else isFalse (fun h' => h (by cases h'; rfl))
  | .ok _, .error _ => isFalse (fun h' => by cases h')
  | .error _, .ok _ => isFalse (fun h' => by cases h')

/-- How the whole process ends. -/
inductive Outcome where
  | exit (code : Int)
  | panic
  | diverge
  deriving DecidableEq, Repr

/-! ## `strings` -/

/-- Model of `strings.Trim(s, cutset)`: all leading and all trailing characters
contained in `cutset` are removed. -/
def stringsTrim (s cutset : String) : String :=
  ⟨((s.data.dropWhile (fun c => cutset.data.contains c)).reverse.dropWhile
      (fun c => cutset.data.contains c)).reverse⟩

/-- Splitting of a character list at every occurrence of `sep`. -/
def splitChars (sep : Char) : List Char → List (List Char)
  | [] => [[]]
  | c :: cs =>
    if c = sep then [] :: splitChars sep cs
    else
      match splitChars sep cs with
      | [] => [[c]]
      | s :: ss => (c :: s) :: ss

/-- Model of `strings.Split(s, sep)` for a one-character separator. -/
def stringsSplit (s : String) (sep : Char) : List String :=
  (splitChars sep s.data).map String.mk

/-- Model of `strings.Join(elems, sep)` for a one-character separator. -/
def stringsJoin : List String → Char → String
  | [], _ => ""
  | [a], _ => a
  | a :: b :: rest, sep => a ++ String.singleton sep ++ stringsJoin (b :: rest) sep

/-! ## The world the shim runs in -/

/-- The document type `PackageJSON.Engines` of `getVerSpecFromPackageJSON`. -/
structure Engines where
  Node : String
  deriving DecidableEq, Repr

/-- The document type `PackageJSON` of `getVerSpecFromPackageJSON`. -/
structure PackageJSON where
  Engines : Engines
  deriving DecidableEq, Repr

/-- How the delegated child process ended. -/
inductive ChildOutcome where
  | exited (code : Nat)
  | signaled
  | launchFailed
  deriving DecidableEq, Repr

/-- The value `cmd.Run()` returns. -/
inductive RunError where
  | nil
  | exitError (exitStatus : Int)
  | otherError
  deriving DecidableEq, Repr

/-- Contract of `os/exec`: `Run` returns `nil` when the child exits with code 0,
an `*exec.ExitError` carrying the wait status when it exits with another code or
is killed by a signal (`ExitStatus()` is then -1), and another error when the
command cannot be started. -/
def cmdRun : ChildOutcome → RunError
  | .exited 0 => .nil
  | .exited (c + 1) => .exitError (Int.ofNat (c + 1))
  | .signaled => .exitError (-1)
  | .launchFailed => .otherError

/-- Everything outside `shim.go`: process environment, file system, child
process, and the library functions the shim calls.  `V` is `semver.Version`,
`C` is `semver.Constraints`. -/
structure World (V C : Type) where
  /-- The function `os.Getenv`. -/
  getenv : String → String
  /-- The slice `os.Args`. -/
  args : List String
  /-- The function `os.Getwd`. -/
  getwd : Except GoError String
  /-- The function `ioutil.ReadFile`. -/
  readFile : String → Except GoError String
  /-- The function `ioutil.ReadDir`, giving the entry names. -/
  readDir : String → Except GoError (List String)
  /-- Outcome of the child started by `exec.Command(name, args...)`. -/
  child : String → List String → ChildOutcome
  /-- The constant `os.PathSeparator`. -/
  pathSeparator : Char
  /-- The function `filepath.Dir`. -/
  filepathDir : String → String
  /-- The function `filepath.IsAbs`. -/
  filepathIsAbs : String → Bool
  /-- The function `filepath.Join` on two elements. -/
  filepathJoin : String → String → String
  /-- The function `json.Unmarshal` into a `PackageJSON`. -/
  jsonUnmarshal : String → Except GoError PackageJSON
  /-- The function `semver.NewVersion`; `none` is a parse error. -/
  newVersion : String → Option V
  /-- The function `semver.NewConstraint`; `none` is a parse error. -/
  newConstraint : String → Option C
  /-- The method `(*Constraints).Check` on a non-nil version. -/
  check : C → V → Bool
  /-- The method `(*Version).LessThan` on non-nil versions. -/
  lessThan : V → V → Bool
  /-- The method `(*Version).String` on a non-nil version. -/
  versionString : V → String

variable {V C : Type}

/-! ## `getVerSpecFromPackageJSON` (lines 273-292) -/

/-- Embedding of `getVerSpecFromPackageJSON`: the pair `(spec, err)`. -/
def getVerSpecFromPackageJSON (w : World V C) (rawPackageJSON : String) :
    String × Option GoError :=
  match w.jsonUnmarshal rawPackageJSON with
  | .ok packageJSON => (packageJSON.Engines.Node, none)
  | .error err => ("", some err)

/-! ## `getLocalVersion` (lines 148-194) -/

/-- The three results `(version, file, returnedError)` of `getLocalVersion`. -/
structure LocalVersion where
  version : String
  file : String
  returnedError : Option GoError
  deriving DecidableEq, Repr

/-- The loop of `getLocalVersion` (lines 173-193).  `file` is the current value
of the named result; the first component is the list of files handed to
`ioutil.ReadFile`, in order. -/
def getLocalVersionLoop (w : World V C) :
    Nat → List String → String → List String × Go LocalVersion
  | 0, _, _ => ([], .diverge)
  | fuel + 1, dirSlice, file =>
    if dirSlice.length = 1 then ([], .ret ⟨"", file, none⟩)
    else
      let dir := stringsJoin dirSlice w.pathSeparator
      let file := dir ++ "\\.node-version"
      match w.readFile file with
      | .ok v => ([file], .ret ⟨v, file, none⟩)
      | .error err =>
        if !isNotExist err then ([file], .ret ⟨"", file, some err⟩)
        else
          match dirSlice with
          | [] => ([file], .panic)
          | _ :: _ =>
            let r := getLocalVersionLoop w fuel dirSlice.dropLast file
            (file :: r.1, r.2)

/-- Lines 149-169 of `getLocalVersion`: the directory the walk starts from, or
the error of `os.Getwd`. -/
def getLocalVersionDir (w : World V C) : Except GoError String :=
  if w.args.length < 2 then w.getwd
  else
    let targetFile := w.args.getD 1 ""
    let dir := w.filepathDir targetFile
    if !w.filepathIsAbs dir then
      match w.getwd with
      | .error err => .error err
      | .ok cwd => .ok (w.filepathJoin cwd dir)
    else .ok dir

/-- Embedding of `getLocalVersion`, with the list of probed files. -/
def getLocalVersion (w : World V C) : List String × Go LocalVersion :=
  match getLocalVersionDir w with
  | .error err => ([], .ret ⟨"", "", some err⟩)
  | .ok dir =>
    let dirSlice := stringsSplit dir w.pathSeparator
    getLocalVersionLoop w dirSlice.length dirSlice ""

/-! ## `getTargetEngine` (lines 227-271) -/

/-- The loop of `getTargetEngine` (lines 250-270), with the list of files handed
to `ioutil.ReadFile`. -/
def getTargetEngineLoop (w : World V C) :
    Nat → List String → List String × Go (String × Option GoError)
  | 0, _ => ([], .diverge)
  | fuel + 1, dirSlice =>
    if dirSlice.length = 1 then ([], .ret ("", none))
    else
      let dir := stringsJoin dirSlice w.pathSeparator
      let file := dir ++ "\\package.json"
      match w.readFile file with
      | .ok rawPackageJSON => ([file], .ret (getVerSpecFromPackageJSON w rawPackageJSON))
      | .error err =>
        if !isNotExist err then ([file], .ret ("", some err))
        else
          match dirSlice with
          | [] => ([file], .panic)
          | _ :: _ =>
            let r := getTargetEngineLoop w fuel dirSlice.dropLast
            (file :: r.1, r.2)

/-- Lines 232-242 of `getTargetEngine`: the directory the walk starts from when
a first command-line argument is present, or the error of `os.Getwd`. -/
def getTargetEngineDir (w : World V C) : Except GoError String :=
  let targetFile := w.args.getD 1 ""
  let dir := w.filepathDir targetFile
  if !w.filepathIsAbs dir then
    match w.getwd with
    | .error err => .error err
    | .ok cwd => .ok (w.filepathJoin cwd dir)
  else .ok dir

/-- Embedding of `getTargetEngine`: the pair `(spec, error)`, with the list of
probed files. -/
def getTargetEngine (w : World V C) : List String × Go (String × Option GoError) :=
  if w.args.length < 2 then ([], .ret ("", none))
  else
    match getTargetEngineDir w with
    | .error err => ([], .ret ("", some err))
    | .ok dir =>
      let dirSlice := stringsSplit dir w.pathSeparator
      getTargetEngineLoop w dirSlice.length dirSlice

/-! ## `getInstalledVersions` (lines 196-225) -/

/-- The comparison `Less(i, j)` of `sort.Reverse(semver.Collection(versions))`
for `versions[i] = a` and `versions[j] = b`: it is `b.LessThan(a)`, which
dereferences both pointers. -/
def reverseLess (w : World V C) (a b : Option V) : Go Bool :=
  match b, a with
  | some vb, some va => .ret (w.lessThan vb va)
  | _, _ => .panic

/-- Inner loop of the insertion sort `sort.Sort` runs on short slices
(`for j := i; j > a && data.Less(j, j-1); j--  swap`): the element `x` at index
`j` moves towards the front of the already sorted part, given back to front. -/
def insertBack (w : World V C) (x : Option V) : List (Option V) → Go (List (Option V))
  | [] => .ret [x]
  | y :: ys =>
    match reverseLess w x y with
    | .ret true =>
      match insertBack w x ys with
      | .ret r => .ret (y :: r)
      | .panic => .panic
      | .diverge => .diverge
    | .ret false => .ret (x :: y :: ys)
    | .panic => .panic
    | .diverge => .diverge

/-- Outer loop of the insertion sort: `sorted` is the sorted part back to
front, the second list is the part not yet visited. -/
def insertionSortFrom (w : World V C) :
    List (Option V) → List (Option V) → Go (List (Option V))
  | sorted, [] => .ret sorted.reverse
  | sorted, x :: xs =>
    match insertBack w x sorted with
    | .ret sorted' => insertionSortFrom w sorted' xs
    | .panic => .panic
    | .diverge => .diverge

/-- Model of `sort.Sort(sort.Reverse(semver.Collection(versions)))`. -/
def sortReverse (w : World V C) : List (Option V) → Go (List (Option V))
  | [] => .ret []
  | x :: xs => insertionSortFrom w [x] xs

/-- The directory main and `getInstalledVersions` compute from `NODIST_PREFIX`
and `NODIST_X64` (lines 106-122 and 198-206). -/
def versionRoot (w : World V C) : String :=
  let x64 := if w.getenv "NODIST_X64" ≠ "" then decide (w.getenv "NODIST_X64" = "1") else false
  let path := w.getenv "NODIST_PREFIX" ++ "/v"
  if x64 then path ++ "-x64" else path

/-- Embedding of `getInstalledVersions`.  `make([]*semver.Version, len(dirs))`
is a slice of `len(dirs)` nil pointers; index `i` is overwritten only when
`dirs[i].Name()` parses. -/
def getInstalledVersions (w : World V C) : Go (Except GoError (List (Option V))) :=
  match w.readDir (versionRoot w) with
  | .error err => .ret (.error err)
  | .ok dirs =>
    let versions := dirs.map w.newVersion
    match sortReverse w versions with
    | .ret sorted => .ret (.ok sorted)
    | .panic => .panic
    | .diverge => .diverge

/-! ## `main` (lines 22-146) -/

/-- Lines 33-53 of `main`: the raw spec before the final trim. -/
def chooseSpec (w : World V C) : Go String :=
  if w.getenv "NODE_VERSION" ≠ "" then .ret (w.getenv "NODE_VERSION")
  else if w.getenv "NODIST_VERSION" ≠ "" then .ret (w.getenv "NODIST_VERSION")
  else
    match (getTargetEngine w).2 with
    | .panic => .panic
    | .diverge => .diverge
    | .ret (v, err) =>
      if err = none ∧ stringsTrim v " \r\n" ≠ "" then .ret v
      else
        match (getLocalVersion w).2 with
        | .panic => .panic
        | .diverge => .diverge
        | .ret lv =>
          if lv.returnedError = none ∧ stringsTrim lv.version " \r\n" ≠ "" then
            .ret lv.version
          else
            match w.readFile (w.getenv "NODIST_PREFIX" ++ "\\.node-version") with
            | .ok v => .ret v
            | .error _ => .ret ""

/-- Line 55 of `main`. -/
def normalizeSpec (spec : String) : String :=
  stringsTrim spec "v \r\n"

/-- The loop of lines 88-94: `v.String()` is evaluated for the debug call
before `constraint.Check(v)`, so a nil entry or a nil constraint is
dereferenced. -/
def selectLoop (w : World V C) (constraint : Option C) : List (Option V) → Go String
  | [] => .ret ""
  | v :: rest =>
    match constraint, v with
    | some c, some ver =>
      if w.check c ver then .ret (w.versionString ver) else selectLoop w constraint rest
    | _, _ => .panic

/-- Lines 83-95 of `main`: the value of `version` after the selection. -/
def selectVersion (w : World V C) (spec : String) (constraint : Option C)
    (installed : List (Option V)) : Go String :=
  if spec = "latest" then
    match installed with
    | [] => .panic
    | none :: _ => .panic
    | some ver :: _ => .ret (w.versionString ver)
  else selectLoop w constraint installed

/-- Lines 25-102 of `main`: either the process ends early, or a version is
selected. -/
def resolveVersion (w : World V C) : Except Outcome String :=
  if w.getenv "NODIST_PREFIX" = "" then .error (.exit 40)
  else
    match chooseSpec w with
    | .panic => .error .panic
    | .diverge => .error .diverge
    | .ret raw =>
      let spec := normalizeSpec raw
      if spec = "" then .error (.exit 41)
      else
        let parsed : Except Outcome (Option C) :=
          if spec ≠ "latest" then
            match w.newConstraint spec with
            | none => .error (.exit 43)
            | some c => .ok (some c)
          else .ok none
        match parsed with
        | .error o => .error o
        | .ok constraint =>
          match getInstalledVersions w with
          | .panic => .error .panic
          | .diverge => .error .diverge
          | .ret (.error _) => .error (.exit 44)
          | .ret (.ok installed) =>
            match selectVersion w spec constraint installed with
            | .panic => .error .panic
            | .diverge => .error .diverge
            | .ret version =>
              if version = "" then .error (.exit 45) else .ok version

/-- The path of the binary main launches (lines 115-125). -/
def nodebin (w : World V C) (version : String) : String :=
  versionRoot w ++ "/" ++ version ++ "/node.exe"

/-- Lines 104-146 of `main`: launch the selected binary and mirror its end.
`os.Args[1:]` panics on an empty `os.Args`. -/
def delegate (w : World V C) (version : String) : Outcome :=
  match w.args with
  | [] => .panic
  | _ :: rest =>
    match cmdRun (w.child (nodebin w version) rest) with
    | .nil => .exit 0
    | .exitError exitStatus => .exit exitStatus
    | .otherError => .exit 42

/-- Embedding of `main`. -/
def main (w : World V C) : Outcome :=
  match resolveVersion w with
  | .error o => o
  | .ok version => delegate w version

/-! ## A reference instance of the library interface, for concrete runs

Plain `MAJOR.MINOR.PATCH` versions with the comparison forms `^x.y.z`,
`>x.y.z` and `x.y.z`; Windows path conventions for absolute paths with
backslashes. -/

/-- A plain `MAJOR.MINOR.PATCH` version. -/
structure Triple where
  major : Nat
  minor : Nat
  patch : Nat
  deriving DecidableEq, Repr

/-- A comparison against one version. -/
inductive Range where
  | caret (t : Triple)
  | greater (t : Triple)
  | exact (t : Triple)
  deriving DecidableEq, Repr

/-- Value of a decimal digit. -/
def digitValue (c : Char) : Option Nat :=
  if c.isDigit then some (c.toNat - 48) else none

/-- Value of a string of decimal digits, most significant first, on top of
the value `acc` of the digits already read. -/
def digitsValue : Nat → List Char → Option Nat
  | acc, [] => some acc
  | acc, c :: cs =>
    match digitValue c with
    | none => none
    | some d => digitsValue (10 * acc + d) cs

/-- Value of a non-empty string of decimal digits. -/
def parseNumber : List Char → Option Nat
  | [] => none
  | c :: cs => digitsValue 0 (c :: cs)

/-- Parser for `MAJOR.MINOR.PATCH`. -/
def parseTripleChars (cs : List Char) : Option Triple :=
  match splitChars '.' cs with
  | [a, b, c] =>
    match parseNumber a, parseNumber b, parseNumber c with
    | some x, some y, some z => some ⟨x, y, z⟩
    | _, _, _ => none
  | _ => none

/-- Parser for a version. -/
def parseTriple (s : String) : Option Triple :=
  parseTripleChars s.data

/-- Parser for `^x.y.z`, `>x.y.z` and `x.y.z`. -/
def parseRange (s : String) : Option Range :=
  match s.data with
  | '^' :: cs => (parseTripleChars cs).map Range.caret
  | '>' :: cs => (parseTripleChars cs).map Range.greater
  | cs => (parseTripleChars cs).map Range.exact

/-- Precedence of versions. -/
def tripleLess (a b : Triple) : Bool :=
  decide (a.major < b.major) ||
    (decide (a.major = b.major) &&
      (decide (a.minor < b.minor) ||
        (decide (a.minor = b.minor) && decide (a.patch < b.patch))))

/-- Whether a version satisfies a comparison. -/
def rangeCheck : Range → Triple → Bool
  | .caret t, v => decide (v.major = t.major) && !tripleLess v t
  | .greater t, v => tripleLess t v
  | .exact t, v => decide (v = t)

/-- Decimal digits of a number, least significant first; `fuel` bounds the
number of digits. -/
def digitsRev : Nat → Nat → List Char
  | 0, _ => []
  | fuel + 1, n =>
    Char.ofNat (48 + n % 10) :: (if n / 10 = 0 then [] else digitsRev fuel (n / 10))

/-- Decimal rendering of a number. -/
def showNumber (n : Nat) : String :=
  ⟨(digitsRev (n + 1) n).reverse⟩

/-- Rendering of a version as `MAJOR.MINOR.PATCH`. -/
def tripleString (t : Triple) : String :=
  showNumber t.major ++ "." ++ showNumber t.minor ++ "." ++ showNumber t.patch

/-- A world given by tables: environment variables, command line, files (with
their read result), directory listings and parsed manifests.  A file or
directory not in its table does not exist, a document not in its table does
not parse.  The child of version 10.2.0 exits with code 7, that of 10.1.0 with
code 3 and any other with code 0. -/
def tableWorld (env : List (String × String)) (args : List String)
    (files : List (String × Except GoError String)) (dirs : List (String × List String))
    (docs : List (String × PackageJSON)) : World Triple Range where
  getenv := fun k => (env.lookup k).getD ""
  args := args
  getwd := .ok "C:\\work"
  readFile := fun p => (files.lookup p).getD (.error .notExist)
  readDir := fun p =>
    match dirs.lookup p with
    | some names => .ok names
    | none => .error .notExist
  child := fun bin _ =>
    if bin = "C:\\nodist/v/10.2.0/node.exe" then .exited 7
    else if bin = "C:\\nodist/v/10.1.0/node.exe" then .exited 3
    else .exited 0
  pathSeparator := '\\'
  filepathDir := fun p =>
    match (stringsSplit p '\\').dropLast with
    | [] => "."
    | segs => stringsJoin segs '\\'
  filepathIsAbs := fun p => decide ((p.data.drop 1).head? = some ':')
  filepathJoin := fun a b => if b = "." then a else a ++ "\\" ++ b
  jsonUnmarshal := fun raw =>
    match docs.lookup raw with
    | some doc => .ok doc
    | none => .error .other
  newVersion := parseTriple
  newConstraint := parseRange
  check := rangeCheck
  lessThan := tripleLess
  versionString := tripleString

/-- The installation used in the examples: prefix `C:\nodist` with the versions
10.1.0, 9.5.0 and 10.2.0 installed. -/
def sampleDirs : List (String × List String) :=
  [("C:\\nodist/v", ["10.1.0", "9.5.0", "10.2.0"])]

/-- The sample installation run with `NODE_VERSION` set to `spec`. -/
def sampleWorld (spec : String) : World Triple Range :=
  tableWorld [("NODIST_PREFIX", "C:\\nodist"), ("NODE_VERSION", spec)] ["node"] [] sampleDirs []

/-- A manifest declaring `engines.node` as 10.1.0. -/
def sampleManifest : String :=
  "\x7b\"engines\":\x7b\"node\":\"10.1.0\"\x7d\x7d"

/-- The parsed manifests of the examples. -/
def sampleDocs : List (String × PackageJSON) :=
  [(sampleManifest, ⟨⟨"10.1.0"⟩⟩)]

/-! ## Notions used in the statements -/

/-- The file `name` in the directory left after removing `i` trailing segments
from `dirSlice`. -/
def ancestorFile (w : World V C) (dirSlice : List String) (name : String) (i : Nat) : String :=
  stringsJoin (List.dropLast^[i] dirSlice) w.pathSeparator ++ name

/-- Whether the resolved spec accepts a version: `latest` accepts every
version, a constraint accepts what `Check` accepts. -/
def accepts (w : World V C) (spec : String) (constraint : Option C) (v : V) : Bool :=
  if spec = "latest" then true
  else
    match constraint with
    | some c => w.check c v
    | none => false

/-- The constraint main holds for a spec: nil for `latest`, otherwise the
parsed spec (lines 62-72). -/
def constraintOf (w : World V C) (spec : String) : Option C :=
  if spec = "latest" then none else w.newConstraint spec

/-- The values of the five sources in priority order, as the resolution
contract lists them; a source that yields nothing has the empty value. -/
def sourceValues (w : World V C) : List String :=
  [ w.getenv "NODE_VERSION",
    w.getenv "NODIST_VERSION",
    (match (getTargetEngine w).2 with
      | .ret (v, _) => v
      | _ => ""),
    (match (getLocalVersion w).2 with
      | .ret lv => lv.version
      | _ => ""),
    (match w.readFile (w.getenv "NODIST_PREFIX" ++ "\\.node-version") with
      | .ok v => v
      | .error _ => "") ]

/-- The resolution contract as worded: the first value that is non-empty after
trimming, the empty string when there is none. -/
def firstNonBlank (values : List String) : String :=
  (values.find? (fun v => decide (stringsTrim v " \r\n" ≠ ""))).getD ""

/-- The normalisation as worded: surrounding whitespace removed, then one
leading `v` removed, nothing else changed. -/
def trimmedWithoutLeadingV (s : String) : String :=
  match (stringsTrim s " \r\n").data with
  | 'v' :: rest => ⟨rest⟩
  | cs => ⟨cs⟩

/-! # Theorems -/

/-! ## Lemmas on the string helpers -/

theorem splitChars_ne_nil (sep : Char) (cs : List Char) : splitChars sep cs ≠ [] := by
  induction cs with
  | nil => simp [splitChars]
  | cons c cs ih =>
    unfold splitChars
    split
    · simp
    · split <;> simp

theorem stringsSplit_length_pos (s : String) (sep : Char) :
    1 ≤ (stringsSplit s sep).length := by
  unfold stringsSplit
  have h := splitChars_ne_nil sep s.data
  rw [List.length_map]
  exact List.length_pos.mpr h

/-! ## The upward walks -/

theorem getLocalVersionLoop_walk (w : World V C) :
    ∀ (fuel : Nat) (dirSlice : List String) (file : String),
      1 ≤ dirSlice.length → dirSlice.length ≤ fuel →
      (∃ lv, (getLocalVersionLoop w fuel dirSlice file).2 = .ret lv) ∧
      (getLocalVersionLoop w fuel dirSlice file).1.length + 1 ≤ dirSlice.length ∧
      ∀ i, i < (getLocalVersionLoop w fuel dirSlice file).1.length →
        (getLocalVersionLoop w fuel dirSlice file).1[i]? =
          some (stringsJoin (List.dropLast^[i] dirSlice) w.pathSeparator ++ "\\.node-version") := by
  intro fuel
  induction fuel with
  | zero => intro dirSlice file h1 h2; omega
  | succ fuel ih =>
    intro dirSlice file h1 h2
    unfold getLocalVersionLoop
    by_cases hlen : dirSlice.length = 1
    · simp [hlen]
    · simp only [hlen, if_false]
      cases hr : w.readFile (stringsJoin dirSlice w.pathSeparator ++ "\\.node-version") with
      | ok v =>
        refine ⟨⟨_, rfl⟩, ?_, ?_⟩
        · simp; omega
        · intro i hi
          simp at hi
          subst hi
          simp
      | error err =>
        cases err with
        | other =>
          refine ⟨⟨_, rfl⟩, ?_, ?_⟩
          · simp [isNotExist]; omega
          · intro i hi
            simp [isNotExist] at hi
            subst hi
            simp [isNotExist]
        | notExist =>
          cases dirSlice with
          | nil => simp at h1
          | cons a rest =>
            have hl : ((a :: rest).dropLast).length = rest.length := by
              rw [List.length_dropLast]; simp
            simp only [List.length_cons] at h1 h2 hlen
            have h1' : 1 ≤ ((a :: rest).dropLast).length := by
              rw [hl]; omega
            have h2' : ((a :: rest).dropLast).length ≤ fuel := by
              rw [hl]; omega
            obtain ⟨hret, hcount, hchain⟩ :=
              ih (a :: rest).dropLast
                (stringsJoin (a :: rest) w.pathSeparator ++ "\\.node-version") h1' h2'
            simp only [isNotExist, Bool.not_true, Bool.false_eq_true, if_false]
            refine ⟨hret, ?_, ?_⟩
            · rw [hl] at hcount
              simp only [List.length_cons]
              omega
            · intro i hi
              cases i with
              | zero => simp
              | succ i =>
                simp only [List.length_cons, Nat.add_lt_add_iff_right] at hi
                simp only [List.getElem?_cons_succ, Function.iterate_succ, Function.comp_apply]
                exact hchain i hi

theorem getTargetEngineLoop_walk (w : World V C) :
    ∀ (fuel : Nat) (dirSlice : List String),
      1 ≤ dirSlice.length → dirSlice.length ≤ fuel →
      (∃ r, (getTargetEngineLoop w fuel dirSlice).2 = .ret r) ∧
      (getTargetEngineLoop w fuel dirSlice).1.length + 1 ≤ dirSlice.length ∧
      ∀ i, i < (getTargetEngineLoop w fuel dirSlice).1.length →
        (getTargetEngineLoop w fuel dirSlice).1[i]? =
          some (stringsJoin (List.dropLast^[i] dirSlice) w.pathSeparator ++ "\\package.json") := by
  intro fuel
  induction fuel with
  | zero => intro dirSlice h1 h2; omega
  | succ fuel ih =>
    intro dirSlice h1 h2
    unfold getTargetEngineLoop
    by_cases hlen : dirSlice.length = 1
    · simp [hlen]
    · simp only [hlen, if_false]
      cases hr : w.readFile (stringsJoin dirSlice w.pathSeparator ++ "\\package.json") with
      | ok v =>
        refine ⟨⟨_, rfl⟩, ?_, ?_⟩
        · simp; omega
        · intro i hi
          simp at hi
          subst hi
          simp
      | error err =>
        cases err with
        | other =>
          refine ⟨⟨_, rfl⟩, ?_, ?_⟩
          · simp [isNotExist]; omega
          · intro i hi
            simp [isNotExist] at hi
            subst hi
            simp [isNotExist]
        | notExist =>
          cases dirSlice with
          | nil => simp at h1
          | cons a rest =>
            have hl : ((a :: rest).dropLast).length = rest.length := by
              rw [List.length_dropLast]; simp
            simp only [List.length_cons] at h1 h2 hlen
            have h1' : 1 ≤ ((a :: rest).dropLast).length := by
              rw [hl]; omega
            have h2' : ((a :: rest).dropLast).length ≤ fuel := by
              rw [hl]; omega
            obtain ⟨hret, hcount, hchain⟩ :=
              ih (a :: rest).dropLast h1' h2'
            simp only [isNotExist, Bool.not_true, Bool.false_eq_true, if_false]
            refine ⟨hret, ?_, ?_⟩
            · rw [hl] at hcount
              simp only [List.length_cons]
              omega
            · intro i hi
              cases i with
              | zero => simp
              | succ i =>
                simp only [List.length_cons, Nat.add_lt_add_iff_right] at hi
                simp only [List.getElem?_cons_succ, Function.iterate_succ, Function.comp_apply]
                exact hchain i hi

/-- The files the walks probe: element `i` is `name` in the directory left
after removing `i` trailing segments. -/
theorem probes_succ (f : List String → String) (dirSlice : List String) (k : Nat) :
    (List.range (k + 1)).map (fun i => f (List.dropLast^[i] dirSlice)) =
      f dirSlice :: (List.range k).map (fun i => f (List.dropLast^[i] dirSlice.dropLast)) := by
  rw [List.range_succ_eq_map]
  simp [List.map_map, Function.comp_def]

theorem getTargetEngineLoop_skip (w : World V C) :
    ∀ (k fuel : Nat) (dirSlice : List String),
      k + 1 ≤ dirSlice.length → k ≤ fuel →
      (∀ i, i < k → w.readFile
        (stringsJoin (List.dropLast^[i] dirSlice) w.pathSeparator ++ "\\package.json") =
          .error .notExist) →
      getTargetEngineLoop w fuel dirSlice =
        ((List.range k).map (fun i =>
            stringsJoin (List.dropLast^[i] dirSlice) w.pathSeparator ++ "\\package.json") ++
          (getTargetEngineLoop w (fuel - k) (List.dropLast^[k] dirSlice)).1,
         (getTargetEngineLoop w (fuel - k) (List.dropLast^[k] dirSlice)).2) := by
  intro k
  induction k with
  | zero => intro fuel dirSlice _ _ _; simp
  | succ k ih =>
    intro fuel dirSlice hlen hfuel hread
    cases fuel with
    | zero => omega
    | succ fuel =>
      cases dirSlice with
      | nil => simp at hlen
      | cons a rest =>
        have h0 := hread 0 (by omega)
        simp only [Function.iterate_zero, id_eq] at h0
        have hne : (a :: rest).length ≠ 1 := by
          simp only [List.length_cons] at hlen ⊢; omega
        have hl : ((a :: rest).dropLast).length = rest.length := by
          rw [List.length_dropLast]; simp
        have hrec := ih fuel (a :: rest).dropLast
          (by rw [hl]; simp only [List.length_cons] at hlen; omega) (by omega)
          (fun i hi => by
            have := hread (i + 1) (by omega)
            simpa only [Function.iterate_succ, Function.comp_apply] using this)
        conv_lhs => unfold getTargetEngineLoop
        simp only [hne, if_false, h0, isNotExist, Bool.not_true, Bool.false_eq_true]
        rw [hrec, probes_succ (fun ds => stringsJoin ds w.pathSeparator ++ "\\package.json")]
        simp only [Function.iterate_succ, Function.comp_apply, Nat.add_sub_add_right,
          List.cons_append]

theorem length_iterate_dropLast (k : Nat) (l : List String) :
    (List.dropLast^[k] l).length = l.length - k := by
  induction k generalizing l with
  | zero => simp
  | succ k ih =>
    rw [Function.iterate_succ_apply, ih, List.length_dropLast]
    omega

/-- One iteration of the manifest loop on a directory of at least two
segments whose `package.json` does not fail with file-does-not-exist. -/
theorem getTargetEngineLoop_stop (w : World V C) (fuel : Nat) (dirSlice : List String)
    (hlen : 2 ≤ dirSlice.length)
    (hread : w.readFile (stringsJoin dirSlice w.pathSeparator ++ "\\package.json") ≠
      .error .notExist) :
    getTargetEngineLoop w (fuel + 1) dirSlice =
      ([stringsJoin dirSlice w.pathSeparator ++ "\\package.json"],
        match w.readFile (stringsJoin dirSlice w.pathSeparator ++ "\\package.json") with
        | .ok raw => .ret (getVerSpecFromPackageJSON w raw)
        | .error err => .ret ("", some err)) := by
  have hne : dirSlice.length ≠ 1 := by omega
  unfold getTargetEngineLoop
  simp only [hne, if_false]
  cases hr : w.readFile (stringsJoin dirSlice w.pathSeparator ++ "\\package.json") with
  | ok raw => rfl
  | error err =>
    cases err with
    | other => simp [isNotExist]
    | notExist => exact absurd hr hread

/-- The manifest walk when the first `k` probes fail with file-does-not-exist
and probe `k` does not. -/
theorem getTargetEngineLoop_reach (w : World V C) (k fuel : Nat) (dirSlice : List String)
    (hlen : k + 2 ≤ dirSlice.length) (hfuel : k + 1 ≤ fuel)
    (hskip : ∀ i, i < k → w.readFile (ancestorFile w dirSlice "\\package.json" i) =
      .error .notExist)
    (hread : w.readFile (ancestorFile w dirSlice "\\package.json" k) ≠ .error .notExist) :
    getTargetEngineLoop w fuel dirSlice =
      ((List.range (k + 1)).map (ancestorFile w dirSlice "\\package.json"),
        match w.readFile (ancestorFile w dirSlice "\\package.json" k) with
        | .ok raw => .ret (getVerSpecFromPackageJSON w raw)
        | .error err => .ret ("", some err)) := by
  have hs := getTargetEngineLoop_skip w k fuel dirSlice (by omega) (by omega) hskip
  obtain ⟨f, hf⟩ : ∃ f, fuel - k = f + 1 := ⟨fuel - k - 1, by omega⟩
  have hl : 2 ≤ (List.dropLast^[k] dirSlice).length := by
    rw [length_iterate_dropLast]; omega
  rw [hs, hf, getTargetEngineLoop_stop w f _ hl hread]
  simp only [List.range_succ, List.map_append, List.map_cons, List.map_nil]
  rfl

/-- Both walks return: they neither panic nor use up the loop budget. -/
theorem getTargetEngine_returns (w : World V C) :
    ∃ r, (getTargetEngine w).2 = .ret r := by
  unfold getTargetEngine
  split
  · exact ⟨_, rfl⟩
  · split
    · exact ⟨_, rfl⟩
    · exact (getTargetEngineLoop_walk w _ _ (stringsSplit_length_pos _ _) (le_refl _)).1

theorem getLocalVersion_returns (w : World V C) :
    ∃ lv, (getLocalVersion w).2 = .ret lv := by
  unfold getLocalVersion
  split
  · exact ⟨_, rfl⟩
  · exact (getLocalVersionLoop_walk w _ _ "" (stringsSplit_length_pos _ _) (le_refl _)).1

/-- The manifest walk of `getTargetEngine` from `dir` when the first `k` probes
fail with file-does-not-exist and probe `k` does not. -/
theorem getTargetEngine_reach (w : World V C) (dir : String) (k : Nat)
    (hargs : 2 ≤ w.args.length) (hdir : getTargetEngineDir w = .ok dir)
    (hlen : k + 2 ≤ (stringsSplit dir w.pathSeparator).length)
    (hskip : ∀ i, i < k → w.readFile
      (ancestorFile w (stringsSplit dir w.pathSeparator) "\\package.json" i) = .error .notExist)
    (hread : w.readFile
      (ancestorFile w (stringsSplit dir w.pathSeparator) "\\package.json" k) ≠
        .error .notExist) :
    getTargetEngine w =
      ((List.range (k + 1)).map (ancestorFile w (stringsSplit dir w.pathSeparator) "\\package.json"),
        match w.readFile
          (ancestorFile w (stringsSplit dir w.pathSeparator) "\\package.json" k) with
        | .ok raw => .ret (getVerSpecFromPackageJSON w raw)
        | .error err => .ret ("", some err)) := by
  have hreach := getTargetEngineLoop_reach w k (stringsSplit dir w.pathSeparator).length
    (stringsSplit dir w.pathSeparator) hlen (by omega) hskip hread
  have hnot : ¬ w.args.length < 2 := by omega
  unfold getTargetEngine
  simp only [hnot, if_false, hdir]
  rw [hreach]

/-- C10: for a starting directory `dir` of `N` path segments, `N ≥ 1`, and every
file system, the walk loops of `getLocalVersion` and `getTargetEngine`, run as
the functions run them, return (no panic, loop budget not used up) and hand at
most `N` files (indeed at most `N - 1`) to `ioutil.ReadFile`.  Probe `i` is the
file in the directory made of the segments of `dir` with its last `i` segments
removed, a directory of `N - i` segments, and probe `i + 1` is the file in the
directory of probe `i` with its last segment removed, a directory of exactly
one segment less. -/
theorem walks_terminate_within_depth (w : World V C) (dir file : String) :
    1 ≤ (stringsSplit dir w.pathSeparator).length ∧
    ((∃ lv, (getLocalVersionLoop w (stringsSplit dir w.pathSeparator).length
        (stringsSplit dir w.pathSeparator) file).2 = .ret lv) ∧
      (getLocalVersionLoop w (stringsSplit dir w.pathSeparator).length
        (stringsSplit dir w.pathSeparator) file).1.length ≤
          (stringsSplit dir w.pathSeparator).length ∧
      (getLocalVersionLoop w (stringsSplit dir w.pathSeparator).length
        (stringsSplit dir w.pathSeparator) file).1.length + 1 ≤
          (stringsSplit dir w.pathSeparator).length ∧
      (∀ i, i < (getLocalVersionLoop w (stringsSplit dir w.pathSeparator).length
          (stringsSplit dir w.pathSeparator) file).1.length →
        (getLocalVersionLoop w (stringsSplit dir w.pathSeparator).length
          (stringsSplit dir w.pathSeparator) file).1[i]? =
            some (stringsJoin (List.dropLast^[i] (stringsSplit dir w.pathSeparator))
              w.pathSeparator ++ "\\.node-version") ∧
        (List.dropLast^[i] (stringsSplit dir w.pathSeparator)).length =
          (stringsSplit dir w.pathSeparator).length - i) ∧
      (∀ i, i + 1 < (getLocalVersionLoop w (stringsSplit dir w.pathSeparator).length
          (stringsSplit dir w.pathSeparator) file).1.length →
        (getLocalVersionLoop w (stringsSplit dir w.pathSeparator).length
          (stringsSplit dir w.pathSeparator) file).1[i + 1]? =
            some (stringsJoin (List.dropLast^[i] (stringsSplit dir w.pathSeparator)).dropLast
              w.pathSeparator ++ "\\.node-version") ∧
        (List.dropLast^[i] (stringsSplit dir w.pathSeparator)).dropLast.length + 1 =
          (List.dropLast^[i] (stringsSplit dir w.pathSeparator)).length)) ∧
    ((∃ r, (getTargetEngineLoop w (stringsSplit dir w.pathSeparator).length
        (stringsSplit dir w.pathSeparator)).2 = .ret r) ∧
      (getTargetEngineLoop w (stringsSplit dir w.pathSeparator).length
        (stringsSplit dir w.pathSeparator)).1.length ≤
          (stringsSplit dir w.pathSeparator).length ∧
      (getTargetEngineLoop w (stringsSplit dir w.pathSeparator).length
        (stringsSplit dir w.pathSeparator)).1.length + 1 ≤
          (stringsSplit dir w.pathSeparator).length ∧
      (∀ i, i < (getTargetEngineLoop w (stringsSplit dir w.pathSeparator).length
          (stringsSplit dir w.pathSeparator)).1.length →
        (getTargetEngineLoop w (stringsSplit dir w.pathSeparator).length
          (stringsSplit dir w.pathSeparator)).1[i]? =
            some (stringsJoin (List.dropLast^[i] (stringsSplit dir w.pathSeparator))
              w.pathSeparator ++ "\\package.json") ∧
        (List.dropLast^[i] (stringsSplit dir w.pathSeparator)).length =
          (stringsSplit dir w.pathSeparator).length - i) ∧
      (∀ i, i + 1 < (getTargetEngineLoop w (stringsSplit dir w.pathSeparator).length
          (stringsSplit dir w.pathSeparator)).1.length →
        (getTargetEngineLoop w (stringsSplit dir w.pathSeparator).length
          (stringsSplit dir w.pathSeparator)).1[i + 1]? =
            some (stringsJoin (List.dropLast^[i] (stringsSplit dir w.pathSeparator)).dropLast
              w.pathSeparator ++ "\\package.json") ∧
        (List.dropLast^[i] (stringsSplit dir w.pathSeparator)).dropLast.length + 1 =
          (List.dropLast^[i] (stringsSplit dir w.pathSeparator)).length)) ∧
    (∃ lv, (getLocalVersion w).2 = .ret lv) ∧ (∃ r, (getTargetEngine w).2 = .ret r) := by
  have hpos := stringsSplit_length_pos dir w.pathSeparator
  obtain ⟨hl1, hl2, hl3⟩ :=
    getLocalVersionLoop_walk w _ (stringsSplit dir w.pathSeparator) file hpos (le_refl _)
  obtain ⟨ht1, ht2, ht3⟩ :=
    getTargetEngineLoop_walk w _ (stringsSplit dir w.pathSeparator) hpos (le_refl _)
  have hstep : ∀ i n, i + 1 < n → n + 1 ≤ (stringsSplit dir w.pathSeparator).length →
      (List.dropLast^[i] (stringsSplit dir w.pathSeparator)).dropLast.length + 1 =
        (List.dropLast^[i] (stringsSplit dir w.pathSeparator)).length := by
    intro i n hi hn
    rw [List.length_dropLast, length_iterate_dropLast]
    omega
  refine ⟨hpos, ⟨hl1, by omega, hl2, ?_, ?_⟩, ⟨ht1, by omega, ht2, ?_, ?_⟩,
    getLocalVersion_returns w, getTargetEngine_returns w⟩
  · intro i hi
    exact ⟨hl3 i hi, length_iterate_dropLast i _⟩
  · intro i hi
    refine ⟨?_, hstep i _ hi hl2⟩
    rw [hl3 (i + 1) hi, Function.iterate_succ_apply']
  · intro i hi
    exact ⟨ht3 i hi, length_iterate_dropLast i _⟩
  · intro i hi
    refine ⟨?_, hstep i _ hi ht2⟩
    rw [ht3 (i + 1) hi, Function.iterate_succ_apply']

/-! ## C9: the manifest walk commits to the first manifest it can read -/

/-- C9, as stated, fails.  First world: `C:\a\b\package.json` fails with an
error other than file-does-not-exist and `C:\a\package.json` is readable; the
nearest readable manifest yields `10.1.0`, the walk returns the error and the
empty spec.  Second world: only `C:\package.json` is readable; the walk from
`C:\a` stops at the single remaining segment `C:` without probing it. -/
theorem manifest_walk_not_fixed_by_nearest_readable :
    ((tableWorld [] ["node", "C:\\a\\b\\x.js"]
        [("C:\\a\\b\\package.json", .error .other), ("C:\\a\\package.json", .ok sampleManifest)]
        [] sampleDocs).readFile "C:\\a\\b\\package.json" = .error .other ∧
      (tableWorld [] ["node", "C:\\a\\b\\x.js"]
        [("C:\\a\\b\\package.json", .error .other), ("C:\\a\\package.json", .ok sampleManifest)]
        [] sampleDocs).readFile "C:\\a\\package.json" = .ok sampleManifest ∧
      getVerSpecFromPackageJSON (tableWorld [] ["node", "C:\\a\\b\\x.js"]
        [("C:\\a\\b\\package.json", .error .other), ("C:\\a\\package.json", .ok sampleManifest)]
        [] sampleDocs) sampleManifest = ("10.1.0", none) ∧
      getTargetEngine (tableWorld [] ["node", "C:\\a\\b\\x.js"]
        [("C:\\a\\b\\package.json", .error .other), ("C:\\a\\package.json", .ok sampleManifest)]
        [] sampleDocs) = (["C:\\a\\b\\package.json"], .ret ("", some .other))) ∧
    ((tableWorld [] ["node", "C:\\a\\x.js"] [("C:\\package.json", .ok sampleManifest)]
        [] sampleDocs).readFile "C:\\a\\package.json" = .error .notExist ∧
      (tableWorld [] ["node", "C:\\a\\x.js"] [("C:\\package.json", .ok sampleManifest)]
        [] sampleDocs).readFile "C:\\package.json" = .ok sampleManifest ∧
      getTargetEngine (tableWorld [] ["node", "C:\\a\\x.js"]
        [("C:\\package.json", .ok sampleManifest)] [] sampleDocs) =
          (["C:\\a\\package.json"], .ret ("", none))) := by
  decide

/-- C9, amended: when the walk of `getTargetEngine` starts from `dir`, the
`package.json` files of the first `k` directories fail with
file-does-not-exist and the one of directory `k` (still of at least two
segments) is read, the walk returns what `getVerSpecFromPackageJSON` yields for
that file (its `engines.node` when the document parses, the empty spec and the
parse error when it does not) and the files probed are exactly those of
directories `0..k`: no `package.json` farther up is read. -/
theorem manifest_walk_commits (w : World V C) (dir raw : String) (k : Nat)
    (hargs : 2 ≤ w.args.length) (hdir : getTargetEngineDir w = .ok dir)
    (hlen : k + 2 ≤ (stringsSplit dir w.pathSeparator).length)
    (hskip : ∀ i, i < k → w.readFile
      (ancestorFile w (stringsSplit dir w.pathSeparator) "\\package.json" i) = .error .notExist)
    (hread : w.readFile
      (ancestorFile w (stringsSplit dir w.pathSeparator) "\\package.json" k) = .ok raw) :
    getTargetEngine w =
      ((List.range (k + 1)).map (ancestorFile w (stringsSplit dir w.pathSeparator) "\\package.json"),
        .ret (getVerSpecFromPackageJSON w raw)) ∧
    (∀ doc, w.jsonUnmarshal raw = .ok doc →
      getVerSpecFromPackageJSON w raw = (doc.Engines.Node, none)) ∧
    (∀ err, w.jsonUnmarshal raw = .error err →
      getVerSpecFromPackageJSON w raw = ("", some err)) := by
  refine ⟨?_, ?_, ?_⟩
  · rw [getTargetEngine_reach w dir k hargs hdir hlen hskip (by rw [hread]; simp), hread]
  · intro doc hdoc
    simp [getVerSpecFromPackageJSON, hdoc]
  · intro err herr
    simp [getVerSpecFromPackageJSON, herr]

/-- Witness of `manifest_walk_commits`: from `C:\a\b`, with no manifest in
`C:\a\b` and one in `C:\a`, the walk returns `10.1.0` after two probes. -/
theorem manifest_walk_commits_witness :
    getTargetEngine (tableWorld [] ["node", "C:\\a\\b\\x.js"]
        [("C:\\a\\package.json", .ok sampleManifest)] [] sampleDocs) =
      (["C:\\a\\b\\package.json", "C:\\a\\package.json"], .ret ("10.1.0", none)) :=
  (manifest_walk_commits (tableWorld [] ["node", "C:\\a\\b\\x.js"]
      [("C:\\a\\package.json", .ok sampleManifest)] [] sampleDocs) "C:\\a\\b" sampleManifest 1
    (by decide) (by decide) (by decide)
    (fun i hi => by
      have hi0 : i = 0 := by omega
      subst hi0
      decide)
    (by decide)).1

/-! ## C7: where the manifest is looked up -/

/-- C7, as stated, fails: no command-line argument, working directory
`C:\work`, a readable `C:\work\package.json` with `engines.node` 10.1.0.
`getTargetEngine` reads no file and returns the empty spec, while
`getLocalVersion` does walk up from the working directory. -/
theorem manifest_not_looked_up_from_cwd :
    (tableWorld [] ["node"] [("C:\\work\\package.json", .ok sampleManifest)] []
      sampleDocs).args.length < 2 ∧
    (tableWorld [] ["node"] [("C:\\work\\package.json", .ok sampleManifest)] []
      sampleDocs).getwd = .ok "C:\\work" ∧
    (tableWorld [] ["node"] [("C:\\work\\package.json", .ok sampleManifest)] []
      sampleDocs).readFile "C:\\work\\package.json" = .ok sampleManifest ∧
    getVerSpecFromPackageJSON (tableWorld [] ["node"]
      [("C:\\work\\package.json", .ok sampleManifest)] [] sampleDocs) sampleManifest =
        ("10.1.0", none) ∧
    getTargetEngine (tableWorld [] ["node"] [("C:\\work\\package.json", .ok sampleManifest)] []
      sampleDocs) = ([], .ret ("", none)) ∧
    (getLocalVersion (tableWorld [] ["node"] [("C:\\work\\package.json", .ok sampleManifest)] []
      sampleDocs)).1 = ["C:\\work\\.node-version"] := by
  decide

/-- C7, amended: with no command-line argument `getTargetEngine` reads no file
and returns the empty spec and no error, whatever the file system holds.  With
a first argument, the walk starts from the directory containing it (made
absolute against the working directory when it is relative): when the
`package.json` files of the first `k` directories of that walk do not exist
and the one of directory `k` is read, the result is what
`getVerSpecFromPackageJSON` yields for it. -/
theorem getTargetEngine_lookup (w : World V C) :
    (w.args.length < 2 → getTargetEngine w = ([], .ret ("", none))) ∧
    (∀ (dir raw : String) (k : Nat), 2 ≤ w.args.length →
      ((w.filepathIsAbs (w.filepathDir (w.args.getD 1 "")) = true ∧
          dir = w.filepathDir (w.args.getD 1 "")) ∨
        (w.filepathIsAbs (w.filepathDir (w.args.getD 1 "")) = false ∧
          ∃ cwd, w.getwd = .ok cwd ∧
            dir = w.filepathJoin cwd (w.filepathDir (w.args.getD 1 "")))) →
      k + 2 ≤ (stringsSplit dir w.pathSeparator).length →
      (∀ i, i < k → w.readFile
        (ancestorFile w (stringsSplit dir w.pathSeparator) "\\package.json" i) =
          .error .notExist) →
      w.readFile (ancestorFile w (stringsSplit dir w.pathSeparator) "\\package.json" k) =
        .ok raw →
      (getTargetEngine w).2 = .ret (getVerSpecFromPackageJSON w raw)) := by
  refine ⟨?_, ?_⟩
  · intro h
    simp [getTargetEngine, h]
  · intro dir raw k hargs hstart hlen hskip hread
    have hdir : getTargetEngineDir w = .ok dir := by
      unfold getTargetEngineDir
      rcases hstart with ⟨habs, hd⟩ | ⟨habs, cwd, hcwd, hd⟩
      · subst hd
        simp only [habs, Bool.not_true, Bool.false_eq_true, if_false]
      · subst hd
        simp only [habs, hcwd, Bool.not_false, if_true]
    rw [getTargetEngine_reach w dir k hargs hdir hlen hskip (by rw [hread]; simp), hread]

/-- Witness of `getTargetEngine_lookup`: run as `node x.js` in `C:\work` with a
manifest in `C:\work`, the manifest walk yields 10.1.0; run as `node` alone it
yields nothing. -/
theorem getTargetEngine_lookup_witness :
    (getTargetEngine (tableWorld [] ["node", "x.js"]
      [("C:\\work\\package.json", .ok sampleManifest)] [] sampleDocs)).2 =
        .ret ("10.1.0", none) ∧
    getTargetEngine (tableWorld [] ["node"]
      [("C:\\work\\package.json", .ok sampleManifest)] [] sampleDocs) = ([], .ret ("", none)) :=
  ⟨(getTargetEngine_lookup (tableWorld [] ["node", "x.js"]
      [("C:\\work\\package.json", .ok sampleManifest)] [] sampleDocs)).2
      "C:\\work" sampleManifest 0 (by decide)
      (Or.inr ⟨by decide, "C:\\work", by decide, by decide⟩) (by decide)
      (fun i hi => absurd hi (Nat.not_lt_zero i)) (by decide),
   (getTargetEngine_lookup (tableWorld [] ["node"]
      [("C:\\work\\package.json", .ok sampleManifest)] [] sampleDocs)).1 (by decide)⟩

/-! ## C2: priority of the sources -/

/-- C2, as stated, fails: with `NODE_VERSION` set to one blank and
`NODIST_VERSION` set to 10.2.0, the first source whose trimmed value is
non-empty is `NODIST_VERSION`, but main takes the blank `NODE_VERSION` and
ends with exit code 41. -/
theorem blank_override_not_skipped :
    firstNonBlank (sourceValues (tableWorld
      [("NODIST_PREFIX", "C:\\nodist"), ("NODE_VERSION", " "), ("NODIST_VERSION", "10.2.0")]
      ["node"] [] sampleDirs [])) = "10.2.0" ∧
    chooseSpec (tableWorld
      [("NODIST_PREFIX", "C:\\nodist"), ("NODE_VERSION", " "), ("NODIST_VERSION", "10.2.0")]
      ["node"] [] sampleDirs []) = .ret " " ∧
    main (tableWorld
      [("NODIST_PREFIX", "C:\\nodist"), ("NODE_VERSION", " "), ("NODIST_VERSION", "10.2.0")]
      ["node"] [] sampleDirs []) = .exit 41 := by
  decide

/-- C2, amended: the raw spec main chooses is the value of the first source
that is present, in the order `NODE_VERSION`, `NODIST_VERSION`, manifest
`engines.node`, local marker, global marker, where an environment variable is
present when it is non-empty (blank or not), the manifest and the local marker
are present when their walk returns no error and a value that is non-empty
after trimming spaces, carriage returns and line feeds, and the global marker
is present when it can be read; with no source present the raw spec is
empty.  In particular a set `NODE_VERSION` is used whatever the other sources
hold. -/
theorem chooseSpec_priority (w : World V C) :
    (w.getenv "NODE_VERSION" ≠ "" → chooseSpec w = .ret (w.getenv "NODE_VERSION")) ∧
    (w.getenv "NODE_VERSION" = "" → w.getenv "NODIST_VERSION" ≠ "" →
      chooseSpec w = .ret (w.getenv "NODIST_VERSION")) ∧
    (w.getenv "NODE_VERSION" = "" → w.getenv "NODIST_VERSION" = "" →
      ∃ v err lv, (getTargetEngine w).2 = .ret (v, err) ∧ (getLocalVersion w).2 = .ret lv ∧
        ((err = none ∧ stringsTrim v " \r\n" ≠ "") → chooseSpec w = .ret v) ∧
        (¬ (err = none ∧ stringsTrim v " \r\n" ≠ "") →
          ((lv.returnedError = none ∧ stringsTrim lv.version " \r\n" ≠ "") →
            chooseSpec w = .ret lv.version) ∧
          (¬ (lv.returnedError = none ∧ stringsTrim lv.version " \r\n" ≠ "") →
            chooseSpec w =
              match w.readFile (w.getenv "NODIST_PREFIX" ++ "\\.node-version") with
              | .ok g => .ret g
              | .error _ => .ret ""))) := by
  refine ⟨?_, ?_, ?_⟩
  · intro h
    simp [chooseSpec, h]
  · intro h1 h2
    simp [chooseSpec, h1, h2]
  · intro h1 h2
    obtain ⟨⟨v, err⟩, ht⟩ := getTargetEngine_returns w
    obtain ⟨lv, hl⟩ := getLocalVersion_returns w
    refine ⟨v, err, lv, ht, hl, ?_, ?_⟩
    · intro hm
      unfold chooseSpec
      simp only [h1, h2, ht, ne_eq, not_true_eq_false, if_false]
      rw [if_pos hm]
    · intro hm
      refine ⟨?_, ?_⟩
      · intro hloc
        unfold chooseSpec
        simp only [h1, h2, ht, hl, ne_eq, not_true_eq_false, if_false]
        rw [if_neg hm, if_pos hloc]
      · intro hloc
        unfold chooseSpec
        simp only [h1, h2, ht, hl, ne_eq, not_true_eq_false, if_false]
        rw [if_neg hm, if_neg hloc]

/-- Witness of `chooseSpec_priority`: a set `NODE_VERSION` wins over a manifest,
a local marker and a global marker that all name other versions. -/
theorem chooseSpec_priority_witness :
    (tableWorld [("NODIST_PREFIX", "C:\\nodist"), ("NODE_VERSION", "10.2.0")]
      ["node", "C:\\a\\x.js"]
      [("C:\\a\\package.json", .ok sampleManifest), ("C:\\a\\.node-version", .ok "9.5.0"),
        ("C:\\nodist\\.node-version", .ok "9.5.0")]
      sampleDirs sampleDocs).getenv "NODE_VERSION" ≠ "" ∧
    chooseSpec (tableWorld [("NODIST_PREFIX", "C:\\nodist"), ("NODE_VERSION", "10.2.0")]
      ["node", "C:\\a\\x.js"]
      [("C:\\a\\package.json", .ok sampleManifest), ("C:\\a\\.node-version", .ok "9.5.0"),
        ("C:\\nodist\\.node-version", .ok "9.5.0")]
      sampleDirs sampleDocs) = .ret "10.2.0" :=
  ⟨by decide,
   (chooseSpec_priority (tableWorld [("NODIST_PREFIX", "C:\\nodist"), ("NODE_VERSION", "10.2.0")]
      ["node", "C:\\a\\x.js"]
      [("C:\\a\\package.json", .ok sampleManifest), ("C:\\a\\.node-version", .ok "9.5.0"),
        ("C:\\nodist\\.node-version", .ok "9.5.0")]
      sampleDirs sampleDocs)).1 (by decide)⟩

/-! ## From the chosen spec to the delegation -/

theorem selectLoop_map_some (w : World V C) (c : C) (catalog : List V) :
    selectLoop w (some c) (catalog.map some) =
      .ret (match catalog.find? (w.check c) with
        | some v => w.versionString v
        | none => "") := by
  induction catalog with
  | nil => rfl
  | cons a l ih =>
    simp only [List.map_cons, selectLoop, List.find?_cons]
    cases h : w.check c a with
    | true => simp
    | false => simpa using ih

/-- In a list sorted in descending order the first element accepted by `p` is
a highest accepted element. -/
theorem first_accepted_highest (less : V → V → Bool) (p : V → Bool)
    (hirr : ∀ v, less v v = false) :
    ∀ catalog : List V, catalog.Pairwise (fun a b => less a b = false) →
      (∃ v ∈ catalog, p v = true) →
      ∃ v, catalog.find? p = some v ∧ v ∈ catalog ∧ p v = true ∧
        ∀ u ∈ catalog, p u = true → less v u = false := by
  intro catalog
  induction catalog with
  | nil => intro _ h; obtain ⟨v, hv, _⟩ := h; simp at hv
  | cons a l ih =>
    intro hs hacc
    rw [List.pairwise_cons] at hs
    cases hpa : p a with
    | true =>
      refine ⟨a, by simp [List.find?_cons, hpa], by simp, hpa, ?_⟩
      intro u hu _
      rcases List.mem_cons.mp hu with rfl | hu'
      · exact hirr u
      · exact hs.1 u hu'
    | false =>
      have hacc' : ∃ v ∈ l, p v = true := by
        obtain ⟨v, hv, hpv⟩ := hacc
        rcases List.mem_cons.mp hv with rfl | hv'
        · rw [hpa] at hpv; cases hpv
        · exact ⟨v, hv', hpv⟩
      obtain ⟨v, hfind, hmem, hpv, hhigh⟩ := ih hs.2 hacc'
      refine ⟨v, by simp [List.find?_cons, hpa, hfind], List.mem_cons_of_mem _ hmem, hpv, ?_⟩
      intro u hu hpu
      rcases List.mem_cons.mp hu with rfl | hu'
      · rw [hpa] at hpu; cases hpu
      · exact hhigh u hu' hpu

/-- C1: for a catalog sorted in descending order in which some entry is
accepted by the resolved spec, the selection of main returns the string of the
first accepted entry in catalog order, which is a highest accepted entry; for
`latest` it is the first catalog entry, otherwise the first entry that
satisfies the constraint. -/
theorem selectVersion_highest (w : World V C) (spec : String) (constraint : Option C)
    (catalog : List V) (hirr : ∀ v, w.lessThan v v = false)
    (hsorted : catalog.Pairwise (fun a b => w.lessThan a b = false))
    (hacc : ∃ v ∈ catalog, accepts w spec constraint v = true) :
    ∃ v, v ∈ catalog ∧ accepts w spec constraint v = true ∧
      selectVersion w spec constraint (catalog.map some) = .ret (w.versionString v) ∧
      (∀ u ∈ catalog, accepts w spec constraint u = true → w.lessThan v u = false) ∧
      (spec = "latest" → catalog.head? = some v) ∧
      (∀ c, spec ≠ "latest" → constraint = some c → catalog.find? (w.check c) = some v) := by
  obtain ⟨v, hfind, hmem, hpv, hhigh⟩ :=
    first_accepted_highest w.lessThan (accepts w spec constraint) hirr catalog hsorted hacc
  refine ⟨v, hmem, hpv, ?_, hhigh, ?_, ?_⟩
  · by_cases hl : spec = "latest"
    · cases catalog with
      | nil => simp at hmem
      | cons a l =>
        simp only [accepts, hl, if_true, List.find?_cons] at hfind
        simp only [Option.some.injEq] at hfind
        subst hfind
        simp [selectVersion, hl]
    · cases constraint with
      | none =>
        simp [accepts, hl] at hpv
      | some c =>
        have hfun : accepts w spec (some c) = w.check c := by
          funext u; simp [accepts, hl]
        rw [hfun] at hfind
        simp only [selectVersion, hl, if_false]
        rw [selectLoop_map_some, hfind]
  · intro hl
    cases catalog with
    | nil => simp at hmem
    | cons a l =>
      simp only [accepts, hl, if_true, List.find?_cons] at hfind
      simpa using hfind
  · intro c hl hc
    subst hc
    have hfun : accepts w spec (some c) = w.check c := by
      funext u; simp [accepts, hl]
    rw [← hfun]
    exact hfind

/-- Witness of `selectVersion_highest`: catalog [10.2.0, 10.1.0, 9.5.0] gives
10.2.0 for the spec `^10.0.0` and for the spec `latest`. -/
theorem selectVersion_highest_witness :
    (∃ v, v ∈ [(⟨10, 2, 0⟩ : Triple), ⟨10, 1, 0⟩, ⟨9, 5, 0⟩] ∧
      accepts (sampleWorld "^10.0.0") "^10.0.0" (parseRange "^10.0.0") v = true ∧
      selectVersion (sampleWorld "^10.0.0") "^10.0.0" (parseRange "^10.0.0")
        ([(⟨10, 2, 0⟩ : Triple), ⟨10, 1, 0⟩, ⟨9, 5, 0⟩].map some) = .ret (tripleString v) ∧
      (∀ u ∈ [(⟨10, 2, 0⟩ : Triple), ⟨10, 1, 0⟩, ⟨9, 5, 0⟩],
        accepts (sampleWorld "^10.0.0") "^10.0.0" (parseRange "^10.0.0") u = true →
          tripleLess v u = false) ∧
      ("^10.0.0" = "latest" →
        [(⟨10, 2, 0⟩ : Triple), ⟨10, 1, 0⟩, ⟨9, 5, 0⟩].head? = some v) ∧
      (∀ c, "^10.0.0" ≠ "latest" → parseRange "^10.0.0" = some c →
        [(⟨10, 2, 0⟩ : Triple), ⟨10, 1, 0⟩, ⟨9, 5, 0⟩].find? (rangeCheck c) = some v)) ∧
    selectVersion (sampleWorld "^10.0.0") "^10.0.0" (parseRange "^10.0.0")
      ([(⟨10, 2, 0⟩ : Triple), ⟨10, 1, 0⟩, ⟨9, 5, 0⟩].map some) = .ret "10.2.0" ∧
    selectVersion (sampleWorld "latest") "latest" none
      ([(⟨10, 2, 0⟩ : Triple), ⟨10, 1, 0⟩, ⟨9, 5, 0⟩].map some) = .ret "10.2.0" ∧
    main (sampleWorld "^10.0.0") = .exit 7 ∧ main (sampleWorld "latest") = .exit 7 :=
  ⟨selectVersion_highest (sampleWorld "^10.0.0") "^10.0.0" (parseRange "^10.0.0")
      [⟨10, 2, 0⟩, ⟨10, 1, 0⟩, ⟨9, 5, 0⟩]
      (fun v => by
        have h : ∀ a b c : Nat, tripleLess ⟨a, b, c⟩ ⟨a, b, c⟩ = false := by
          intro a b c; simp [tripleLess]
        exact h v.major v.minor v.patch)
      (by decide) ⟨⟨10, 2, 0⟩, by decide, by decide⟩,
    by decide, by decide, by decide, by decide⟩

/-! ## C6: the exit code of the child -/

/-- C6: once a version has been selected, a child that terminates normally
with exit code `c` in 0..255 makes main exit with exactly `c`, and a child that
cannot be launched makes main exit with code 42. -/
theorem child_exit_code_mirrored (w : World V C) (version : String)
    (hargs : w.args ≠ []) (hsel : resolveVersion w = .ok version) :
    (∀ c : Nat, c ≤ 255 → w.child (nodebin w version) w.args.tail = .exited c →
      main w = .exit (Int.ofNat c)) ∧
    (w.child (nodebin w version) w.args.tail = .launchFailed → main w = .exit 42) := by
  cases hw : w.args with
  | nil => exact absurd hw hargs
  | cons a rest =>
    simp only [List.tail_cons]
    refine ⟨?_, ?_⟩
    · intro c _ hc
      cases c with
      | zero => simp [main, hsel, delegate, hw, hc, cmdRun]
      | succ c => simp [main, hsel, delegate, hw, hc, cmdRun]
    · intro hc
      simp [main, hsel, delegate, hw, hc, cmdRun]

/-- Witness of `child_exit_code_mirrored`: in the sample installation run with
`^10.0.0` the child of 10.2.0 exits with code 7 and so does main. -/
theorem child_exit_code_mirrored_witness :
    (sampleWorld "^10.0.0").args ≠ [] ∧
    resolveVersion (sampleWorld "^10.0.0") = .ok "10.2.0" ∧
    (sampleWorld "^10.0.0").child (nodebin (sampleWorld "^10.0.0") "10.2.0")
      (sampleWorld "^10.0.0").args.tail = .exited 7 ∧
    main (sampleWorld "^10.0.0") = .exit 7 :=
  ⟨by decide, by decide, by decide,
   (child_exit_code_mirrored (sampleWorld "^10.0.0") "10.2.0" (by decide) (by decide)).1 7
     (by decide) (by decide)⟩

/-! ## C3: normalisation of the chosen spec -/

/-- C3 on the code: the raw spec `1.2.3-dev` has neither surrounding whitespace
nor a leading `v`, so the normalisation as worded leaves it unchanged, but
line 55 cuts its trailing `v` and main goes on with `1.2.3-de`.  The example of
the claim holds: `  v1.2.3 \n` becomes `1.2.3`. -/
theorem normalizeSpec_cuts_trailing_v :
    trimmedWithoutLeadingV "1.2.3-dev" = "1.2.3-dev" ∧
    normalizeSpec "1.2.3-dev" = "1.2.3-de" ∧
    normalizeSpec "1.2.3-dev" ≠ trimmedWithoutLeadingV "1.2.3-dev" ∧
    normalizeSpec "  v1.2.3 \n" = "1.2.3" ∧
    trimmedWithoutLeadingV "  v1.2.3 \n" = "1.2.3" := by
  decide

/-! ## C4: no installed version matches -/

theorem selectLoop_no_match (w : World V C) (c : C) (catalog : List V)
    (hnone : ∀ v ∈ catalog, w.check c v = false) :
    selectLoop w (some c) (catalog.map some) = .ret "" := by
  rw [selectLoop_map_some]
  have h : catalog.find? (w.check c) = none := by
    rw [List.find?_eq_none]
    intro v hv
    simp [hnone v hv]
  rw [h]

/-- C4 on the code: with the spec `latest` and a version root that is listed
successfully and is empty, line 86 indexes the empty slice and main panics
instead of ending with exit code 45.  With a constraint that no installed
version satisfies (`>20.0.0` against 10.2.0, 10.1.0, 9.5.0) main does end with
exit code 45, and a malformed spec ends with exit code 43. -/
theorem latest_on_empty_catalog_panics :
    getInstalledVersions (tableWorld [("NODIST_PREFIX", "C:\\nodist"), ("NODE_VERSION", "latest")]
      ["node"] [] [("C:\\nodist/v", [])] []) = .ret (.ok []) ∧
    main (tableWorld [("NODIST_PREFIX", "C:\\nodist"), ("NODE_VERSION", "latest")]
      ["node"] [] [("C:\\nodist/v", [])] []) = .panic ∧
    main (tableWorld [("NODIST_PREFIX", "C:\\nodist"), ("NODE_VERSION", ">20.0.0")]
      ["node"] [] [("C:\\nodist/v", [])] []) = .exit 45 ∧
    main (sampleWorld ">20.0.0") = .exit 45 ∧
    main (sampleWorld "not-a-version") = .exit 43 := by
  decide

/-! ## C5: the catalog of installed versions -/

/-- A version root holding a single name that does not parse: the catalog is
one nil pointer. -/
theorem getInstalledVersions_single_unparsable (w : World V C) (name : String)
    (hread : w.readDir (versionRoot w) = .ok [name]) (hparse : w.newVersion name = none) :
    getInstalledVersions w = .ret (.ok [none]) := by
  simp [getInstalledVersions, hread, hparse, sortReverse, insertionSortFrom]

/-- A version root holding two names of which one does not parse: the sort
dereferences the nil pointer. -/
theorem getInstalledVersions_pair_unparsable (w : World V C) (a b : String)
    (hread : w.readDir (versionRoot w) = .ok [a, b])
    (hparse : w.newVersion a = none ∨ w.newVersion b = none) :
    getInstalledVersions w = .panic := by
  rcases hparse with h | h
  · cases hb : w.newVersion b <;>
      simp [getInstalledVersions, hread, h, hb, sortReverse, insertionSortFrom, insertBack,
        reverseLess]
  · cases ha : w.newVersion a <;>
      simp [getInstalledVersions, hread, h, ha, sortReverse, insertionSortFrom, insertBack,
        reverseLess]

/-- C5 on the code: a version root holding only the entry `foo` gives the
catalog `[nil]`, one placeholder for the name that does not parse, and main run
with `latest` then panics; a version root holding `10.2.0` and `foo` makes the
call itself panic in the sort.  When every name parses the catalog is the
parsed versions from newest to oldest. -/
theorem unparsable_name_leaves_nil_entry :
    getInstalledVersions (tableWorld [("NODIST_PREFIX", "C:\\nodist"), ("NODE_VERSION", "latest")]
      ["node"] [] [("C:\\nodist/v", ["foo"])] []) = .ret (.ok [none]) ∧
    main (tableWorld [("NODIST_PREFIX", "C:\\nodist"), ("NODE_VERSION", "latest")]
      ["node"] [] [("C:\\nodist/v", ["foo"])] []) = .panic ∧
    getInstalledVersions (tableWorld [("NODIST_PREFIX", "C:\\nodist"), ("NODE_VERSION", "latest")]
      ["node"] [] [("C:\\nodist/v", ["10.2.0", "foo"])] []) = .panic ∧
    getInstalledVersions (sampleWorld "latest") =
      .ret (.ok [some ⟨10, 2, 0⟩, some ⟨10, 1, 0⟩, some ⟨9, 5, 0⟩]) := by
  decide

/-! ## The catalog when every name parses -/

theorem insertBack_some (w : World V C) (x : V)
    (hasymm : ∀ a b, w.lessThan a b = true → w.lessThan b a = false)
    (htrans : ∀ a b c, w.lessThan a b = false → w.lessThan b c = false →
      w.lessThan a c = false) :
    ∀ back : List V, ∃ back' : List V,
      insertBack w (some x) (back.map some) = .ret (back'.map some) ∧
      back'.Perm (x :: back) ∧
      (back.Pairwise (fun a b => w.lessThan b a = false) →
        back'.Pairwise (fun a b => w.lessThan b a = false)) := by
  intro back
  induction back with
  | nil => exact ⟨[x], rfl, List.Perm.refl _, fun _ => List.pairwise_singleton _ _⟩
  | cons y ys ih =>
    obtain ⟨r, hr, hperm, hsorted⟩ := ih
    cases hlt : w.lessThan y x with
    | true =>
      refine ⟨y :: r, ?_, ?_, ?_⟩
      · simp only [List.map_cons, insertBack, reverseLess, hlt, hr]
      · exact (List.Perm.cons y hperm).trans (List.Perm.swap x y ys)
      · intro hp
        rw [List.pairwise_cons] at hp ⊢
        refine ⟨?_, hsorted hp.2⟩
        intro z hz
        rcases List.mem_cons.mp (hperm.subset hz) with rfl | hz'
        · exact hasymm _ _ hlt
        · exact hp.1 z hz'
    | false =>
      refine ⟨x :: y :: ys, ?_, List.Perm.refl _, ?_⟩
      · simp only [List.map_cons, insertBack, reverseLess, hlt]
      · intro hp
        refine List.pairwise_cons.mpr ⟨?_, hp⟩
        intro z hz
        rcases List.mem_cons.mp hz with rfl | hz'
        · exact hlt
        · exact htrans _ _ _ ((List.pairwise_cons.mp hp).1 z hz') hlt

theorem insertionSortFrom_some (w : World V C)
    (hasymm : ∀ a b, w.lessThan a b = true → w.lessThan b a = false)
    (htrans : ∀ a b c, w.lessThan a b = false → w.lessThan b c = false →
      w.lessThan a c = false) :
    ∀ (rest back : List V), back.Pairwise (fun a b => w.lessThan b a = false) →
      ∃ sorted : List V,
        insertionSortFrom w (back.map some) (rest.map some) = .ret (sorted.map some) ∧
        sorted.Perm (back ++ rest) ∧
        sorted.Pairwise (fun a b => w.lessThan a b = false) := by
  intro rest
  induction rest with
  | nil =>
    intro back hp
    refine ⟨back.reverse, ?_, ?_, List.pairwise_reverse.mpr hp⟩
    · simp [insertionSortFrom]
    · simp
  | cons x xs ih =>
    intro back hp
    obtain ⟨back', hins, hperm, hsorted⟩ := insertBack_some w x hasymm htrans back
    obtain ⟨sorted, hrun, hperm', hdesc⟩ := ih back' (hsorted hp)
    refine ⟨sorted, ?_, ?_, hdesc⟩
    · simp only [List.map_cons, insertionSortFrom, hins]
      exact hrun
    · refine hperm'.trans ?_
      refine (List.Perm.append_right xs hperm).trans ?_
      have hmid : (back ++ x :: xs).Perm (x :: (back ++ xs)) := List.perm_middle
      simpa using hmid.symm

/-- When every entry name of the version root parses, and `LessThan` is a
strict weak order, `getInstalledVersions` returns the parsed versions, each
once, from newest to oldest. -/
theorem getInstalledVersions_sorted (w : World V C) (names : List String)
    (hasymm : ∀ a b, w.lessThan a b = true → w.lessThan b a = false)
    (htrans : ∀ a b c, w.lessThan a b = false → w.lessThan b c = false →
      w.lessThan a c = false)
    (hread : w.readDir (versionRoot w) = .ok names)
    (hall : ∀ name ∈ names, w.newVersion name ≠ none) :
    ∃ sorted : List V,
      getInstalledVersions w = .ret (.ok (sorted.map some)) ∧
      sorted.Perm (names.filterMap w.newVersion) ∧
      sorted.Pairwise (fun a b => w.lessThan a b = false) := by
  have hmap : names.map w.newVersion = (names.filterMap w.newVersion).map some := by
    clear hread
    induction names with
    | nil => rfl
    | cons n ns ih =>
      have hn := hall n (by simp)
      have ih' := ih (fun m hm => hall m (List.mem_cons_of_mem _ hm))
      cases hv : w.newVersion n with
      | none => exact absurd hv hn
      | some v => simp [List.filterMap_cons, hv, ih']
  unfold getInstalledVersions
  simp only [hread, hmap]
  cases hl : names.filterMap w.newVersion with
  | nil => exact ⟨[], by simp [sortReverse], List.Perm.refl _, List.Pairwise.nil⟩
  | cons v vs =>
    obtain ⟨sorted, hrun, hperm, hdesc⟩ :=
      insertionSortFrom_some w hasymm htrans vs [v] (List.pairwise_singleton _ _)
    refine ⟨sorted, ?_, by simpa using hperm, hdesc⟩
    simp only [List.map_cons, sortReverse]
    have hrun' : insertionSortFrom w [some v] (List.map some vs) = .ret (sorted.map some) := by
      simpa using hrun
    rw [hrun']

/-! ## `main` from the selection on -/

/-- Lines 25-102 once the raw spec is chosen, the spec is well formed and the
catalog is listed: the outcome is decided by the selection. -/
theorem resolveVersion_of_catalog (w : World V C) (raw : String) (installed : List (Option V))
    (hroot : w.getenv "NODIST_PREFIX" ≠ "") (hchoose : chooseSpec w = .ret raw)
    (hspec : normalizeSpec raw ≠ "")
    (hparse : normalizeSpec raw ≠ "latest" → w.newConstraint (normalizeSpec raw) ≠ none)
    (hlist : getInstalledVersions w = .ret (.ok installed)) :
    resolveVersion w =
      match selectVersion w (normalizeSpec raw) (constraintOf w (normalizeSpec raw)) installed with
      | .ret version => if version = "" then .error (.exit 45) else .ok version
      | .panic => .error .panic
      | .diverge => .error .diverge := by
  unfold resolveVersion constraintOf
  simp only [hroot, if_false, hchoose, hspec]
  by_cases hl : normalizeSpec raw = "latest"
  · simp only [hl, ne_eq, not_true_eq_false, if_false, if_true, hlist]
    cases selectVersion w "latest" none installed <;> rfl
  · have hc := hparse hl
    cases hcon : w.newConstraint (normalizeSpec raw) with
    | none => exact absurd hcon hc
    | some c =>
      simp only [hl, ne_eq, not_false_eq_true, if_true, if_false, hlist]
      cases selectVersion w (normalizeSpec raw) (some c) installed <;> rfl

/-- With a constraint that no entry of a catalog of parsed versions satisfies
(an empty catalog included) main ends with exit code 45. -/
theorem main_no_match (w : World V C) (raw : String) (c : C) (catalog : List V)
    (hroot : w.getenv "NODIST_PREFIX" ≠ "") (hchoose : chooseSpec w = .ret raw)
    (hspec : normalizeSpec raw ≠ "") (hnot : normalizeSpec raw ≠ "latest")
    (hparse : w.newConstraint (normalizeSpec raw) = some c)
    (hlist : getInstalledVersions w = .ret (.ok (catalog.map some)))
    (hnone : ∀ v ∈ catalog, w.check c v = false) :
    main w = .exit 45 := by
  have h := resolveVersion_of_catalog w raw (catalog.map some) hroot hchoose hspec
    (fun _ => by rw [hparse]; simp) hlist
  have hsel : selectVersion w (normalizeSpec raw) (constraintOf w (normalizeSpec raw))
      (catalog.map some) = .ret "" := by
    simp only [selectVersion, constraintOf, hnot, if_false, hparse]
    exact selectLoop_no_match w c catalog hnone
  rw [hsel] at h
  simp [main, h]

/-- With the spec `latest` and an empty catalog main panics. -/
theorem main_latest_empty (w : World V C) (raw : String)
    (hroot : w.getenv "NODIST_PREFIX" ≠ "") (hchoose : chooseSpec w = .ret raw)
    (hlatest : normalizeSpec raw = "latest")
    (hlist : getInstalledVersions w = .ret (.ok [])) :
    main w = .panic := by
  have h := resolveVersion_of_catalog w raw [] hroot hchoose (by rw [hlatest]; decide)
    (fun hne => absurd hlatest hne) hlist
  have hsel : selectVersion w (normalizeSpec raw) (constraintOf w (normalizeSpec raw)) [] =
      .panic := by
    simp [selectVersion, hlatest]
  rw [hsel] at h
  simp [main, h]

end Shim
